import Mathlib

/-!
Verification of `generate_js.py`, the single-file documentation bundler.

The script reads a fixed registry of markdown files, builds a dict from page
identifier to file text (with a fallback string for unreadable files), and
prints the dict serialized by `json.dumps(..., indent=4)` as a JavaScript
assignment statement.

The embedding below models the script as a pure function of a filesystem
oracle `FS : String → Except String String` mapping a path to either the
UTF-8-decoded text of the file (before universal-newline translation, which
`open(..., 'r')` performs and which is modelled explicitly by `univNL`) or
the message string of the exception raised while opening/reading/decoding it.
`print` calls are modelled by appending the printed text plus a newline to a
list of stdout chunks; the script never writes to stderr, which is modelled
by a stderr chunk list that stays empty.
-/

/-- A filesystem oracle: for a path, either the decoded text of the file
(as `f.read()` would produce it before newline translation) or the message
of the exception raised during open/read/decode. -/
def FS : Type := String → Except String String

/-- The `pages_map` dict literal of the script: the fixed ordered registry of
(identifier, filename) pairs. -/
def pages_map : List (String × String) :=
  [ ("home", "README.md"),
    ("installation", "installation.md"),
    ("getting-started", "getting-started.md"),
    ("configuration", "configuration.md"),
    ("factories", "factories.md"),
    ("expectations", "expectations.md"),
    ("authentication", "authentication.md"),
    ("database-isolation", "database-isolation.md"),
    ("browser-testing", "browser-testing.md"),
    ("rest-api-testing", "rest-api-testing.md"),
    ("ajax-testing", "ajax-testing.md"),
    ("architecture-testing", "architecture-testing.md"),
    ("mocking", "mocking.md"),
    ("fixtures", "fixtures.md"),
    ("snapshots", "snapshots.md"),
    ("visual-regression", "visual-regression.md"),
    ("accessibility-testing", "accessibility-testing.md"),
    ("woocommerce", "woocommerce.md"),
    ("gutenberg", "gutenberg.md"),
    ("ci-cd", "ci-cd.md"),
    ("migration", "migration.md") ]

/-- `base_path = 'docs/guide/'` of the script. -/
def base_path : String := "docs/guide/"

/-- POSIX `os.path.join` restricted to two components, as the script uses it:
an absolute second component replaces the first, otherwise a slash is
inserted unless the first component is empty or already ends in one. -/
def osPathJoin (a b : String) : String :=
  if b.data.head? = some '/' then b
  else if a = "" ∨ a.data.getLast? = some '/' then a ++ b
  else a ++ "/" ++ b

/-- Universal-newline translation performed by `open(path, 'r')` in Python
(text mode with `newline=None`): each `"\r\n"` pair and each lone `'\r'`
becomes `'\n'`. -/
def univNL : List Char → List Char
  | [] => []
  | '\r' :: '\n' :: rest => '\n' :: univNL rest
  | '\r' :: rest => '\n' :: univNL rest
  | c :: rest => c :: univNL rest

/-- String version of universal-newline translation. -/
def univNLStr (s : String) : String := ⟨univNL s.data⟩

/-- Python dict assignment `d[k] = v`: overwrite in place if the key is
present, otherwise append at the end (insertion order preserved). -/
def dictSet (d : List (String × String)) (k v : String) : List (String × String) :=
  if d.any (fun p => p.1 == k) then
    d.map (fun p => if p.1 = k then (p.1, v) else p)
  else d ++ [(k, v)]

/-- The mutable state of the script during the bundling loop: the stdout
chunks printed so far (each `print(s)` contributes `s ++ "\n"`), the stderr
chunks (the script never writes any), and the `embedded_pages` dict. -/
structure RunState where
  stdout : List String
  stderr : List String
  pages : List (String × String)
deriving Repr, DecidableEq

/-- One iteration of the `for key, filename in pages_map.items()` loop:
join the path, try to read; on success store the (newline-translated)
content, on any exception print a diagnostic to stdout and store the
fallback string. -/
def bundleStep (fs : FS) (st : RunState) (entry : String × String) : RunState :=
  let filepath := osPathJoin base_path entry.2
  match fs filepath with
  | .ok t =>
      { st with pages := dictSet st.pages entry.1 (univNLStr t) }
  | .error e =>
      { st with
        stdout := st.stdout ++ ["Error reading " ++ filepath ++ ": " ++ e ++ "\n"],
        pages := dictSet st.pages entry.1 ("# Error\nCould not load " ++ entry.2) }

/-- The whole bundling loop, starting from `embedded_pages = {}` and an empty
stdout. -/
def runBundle (fs : FS) : RunState :=
  pages_map.foldl (bundleStep fs) ⟨[], [], []⟩

/-- The `embedded_pages` dict after the loop. -/
def embedded_pages (fs : FS) : List (String × String) :=
  (runBundle fs).pages

/-- Association-list lookup on the dict (registry keys are distinct, so this
is exactly Python dict indexing for the dicts the script builds). -/
def lookupKey (k : String) : List (String × String) → Option String
  | [] => none
  | p :: rest => if p.1 = k then some p.2 else lookupKey k rest

/-- The value the loop stores for a registry entry with filename `fn`:
the translated file text on a successful read, the fallback string on any
exception. -/
def entryValue (fs : FS) (fn : String) : String :=
  match fs (osPathJoin base_path fn) with
  | .ok t => univNLStr t
  | .error _ => "# Error\nCould not load " ++ fn

/-- The diagnostic chunks one loop iteration prints (empty on success). -/
def entryDiag (fs : FS) (fn : String) : List String :=
  match fs (osPathJoin base_path fn) with
  | .ok _ => []
  | .error e => ["Error reading " ++ osPathJoin base_path fn ++ ": " ++ e ++ "\n"]

/-! ### The serializer: `json.dumps(embedded_pages, indent=4)`

Modelled character-for-character from CPython's `json.encoder`
(`py_encode_basestring_ascii` with the default `ensure_ascii=True`, and the
iterencode loop with `indent=4` and default separators `(',', ': ')`). -/

/-- Lowercase hex digit for a value below 16. -/
def hexDig (d : Nat) : Char :=
  if d < 10 then Char.ofNat (48 + d) else Char.ofNat (87 + d)

/-- Four lowercase hex digits of a value below 0x10000, as `"%04x" % n`. -/
def toHex4 (n : Nat) : List Char :=
  [hexDig (n / 4096 % 16), hexDig (n / 256 % 16), hexDig (n / 16 % 16), hexDig (n % 16)]

/-- `ensure_ascii` escaping of one character: the seven short escapes, raw
printable ASCII, `\uXXXX` for everything else, with a surrogate pair for
characters beyond the basic multilingual plane. -/
def escapeChar (c : Char) : List Char :=
  if c = '\\' then ['\\', '\\']
  else if c = '"' then ['\\', '"']
  else if c = Char.ofNat 8 then ['\\', 'b']
  else if c = Char.ofNat 12 then ['\\', 'f']
  else if c = '\n' then ['\\', 'n']
  else if c = '\r' then ['\\', 'r']
  else if c = '\t' then ['\\', 't']
  else if 0x20 ≤ c.toNat ∧ c.toNat ≤ 0x7E then [c]
  else if c.toNat < 0x10000 then '\\' :: 'u' :: toHex4 c.toNat
  else
    ('\\' :: 'u' :: toHex4 (0xD800 + (c.toNat - 0x10000) / 0x400)) ++
    ('\\' :: 'u' :: toHex4 (0xDC00 + (c.toNat - 0x10000) % 0x400))

/-- JSON encoding of a string: a quoted, escaped character sequence. -/
def encString (s : List Char) : List Char :=
  '"' :: (s.map escapeChar).flatten ++ ['"']

/-- One serialized dict member, without its leading indentation:
`"key": "value"`. -/
def dumpItem (p : List Char × List Char) : List Char :=
  encString p.1 ++ ':' :: ' ' :: encString p.2

/-- What follows a serialized member: either `",\n    "` and the next member,
or the closing `"\n}"`. -/
def membersTail : List (List Char × List Char) → List Char
  | [] => ['\n', '}']
  | p :: ps => ',' :: '\n' :: ' ' :: ' ' :: ' ' :: ' ' :: (dumpItem p ++ membersTail ps)

/-- `json.dumps(d, indent=4)` for a dict of strings: `{}` when empty,
otherwise members separated by `",\n"`, each indented four spaces. -/
def dumpsList : List (List Char × List Char) → List Char
  | [] => ['{', '}']
  | p :: ps => '{' :: '\n' :: ' ' :: ' ' :: ' ' :: ' ' :: (dumpItem p ++ membersTail ps)

/-- `json.dumps` on a dict of Lean strings. -/
def jsonDumps (m : List (String × String)) : String :=
  ⟨dumpsList (m.map (fun p => (p.1.data, p.2.data)))⟩

/-- The `js_content` string of the script: eight spaces, the assignment
head, the serialized dict, then `";\n"`. -/
def js_content (fs : FS) : String :=
  "        const embeddedPages = " ++ jsonDumps (embedded_pages fs) ++ ";\n"

/-- The final state of the whole script run: the loop, then
`print(js_content)`, which appends `js_content ++ "\n"` to stdout. The
script always finishes normally, with exit status 0. -/
structure RunResult where
  stdout : List String
  stderr : List String
  exitCode : Nat
deriving Repr, DecidableEq

/-- The complete script as a function of the filesystem oracle. -/
def runProgram (fs : FS) : RunResult :=
  let st := runBundle fs
  { stdout := st.stdout ++ [js_content fs ++ "\n"],
    stderr := st.stderr,
    exitCode := 0 }

/-! ### A standard JSON parser for string-valued objects

The spec-side definition for the round-trip property: a strict RFC 8259
parser for the fragment the serializer emits (an object whose values are
strings). It accepts the standard whitespace and all standard string
escapes, requires surrogates to be properly paired, and rejects unescaped
control characters. -/

/-- JSON insignificant whitespace. -/
def isWs (c : Char) : Bool :=
  c = ' ' ∨ c = '\t' ∨ c = '\n' ∨ c = '\r'

/-- Drop leading JSON whitespace. -/
def skipWs : List Char → List Char
  | [] => []
  | c :: r => if isWs c then skipWs r else c :: r

/-- Value of one hex digit, upper or lower case. -/
def hexVal (c : Char) : Option Nat :=
  if '0' ≤ c ∧ c ≤ '9' then some (c.toNat - 48)
  else if 'a' ≤ c ∧ c ≤ 'f' then some (c.toNat - 87)
  else if 'A' ≤ c ∧ c ≤ 'F' then some (c.toNat - 55)
  else none

/-- Prepend a decoded character to the result of a string-body parse. -/
def consFst (c : Char) : Option (List Char × List Char) → Option (List Char × List Char)
  | none => none
  | some p => some (c :: p.1, p.2)

/-- After a high surrogate `\\uXXXX` with value `n`, parse the mandatory low
surrogate escape and hand the rest to the continuation `k`; anything else is
rejected. -/
def parseLowSur (n : Nat) (k : List Char → Option (List Char × List Char)) :
    List Char → Option (List Char × List Char)
  | '\\' :: 'u' :: a2 :: b2 :: c3 :: d2 :: r3 =>
    (hexVal a2).bind fun wa => (hexVal b2).bind fun wb =>
    (hexVal c3).bind fun wc => (hexVal d2).bind fun wd =>
    let m := wa * 4096 + wb * 256 + wc * 16 + wd
    if 56320 ≤ m ∧ m ≤ 57343 then
      consFst (Char.ofNat (65536 + (n - 55296) * 1024 + (m - 56320))) (k r3)
    else none
  | _ => none

/-- Parse a JSON string body up to and including the closing quote,
returning the decoded characters and the remaining input. Surrogate pairs
are combined; lone surrogates and unescaped control characters are
rejected. The fuel argument makes the recursion structural; one unit is
spent per decoded character, so any fuel above the input length is enough. -/
def parseStringBodyF : Nat → List Char → Option (List Char × List Char)
  | 0, _ => none
  | _ + 1, [] => none
  | fuel + 1, c :: rest =>
    if c = '"' then some ([], rest)
    else if c = '\\' then
      match rest with
      | [] => none
      | e :: r =>
        if e = '"' then consFst '"' (parseStringBodyF fuel r)
        else if e = '\\' then consFst '\\' (parseStringBodyF fuel r)
        else if e = '/' then consFst '/' (parseStringBodyF fuel r)
        else if e = 'b' then consFst (Char.ofNat 8) (parseStringBodyF fuel r)
        else if e = 'f' then consFst (Char.ofNat 12) (parseStringBodyF fuel r)
        else if e = 'n' then consFst '\n' (parseStringBodyF fuel r)
        else if e = 'r' then consFst '\r' (parseStringBodyF fuel r)
        else if e = 't' then consFst '\t' (parseStringBodyF fuel r)
        else if e = 'u' then
          match r with
          | a :: b :: c2 :: d :: r2 =>
            (hexVal a).bind fun va => (hexVal b).bind fun vb =>
            (hexVal c2).bind fun vc => (hexVal d).bind fun vd =>
            let n := va * 4096 + vb * 256 + vc * 16 + vd
            if 55296 ≤ n ∧ n ≤ 56319 then parseLowSur n (parseStringBodyF fuel) r2
            else if 56320 ≤ n ∧ n ≤ 57343 then none
            else consFst (Char.ofNat n) (parseStringBodyF fuel r2)
          | _ => none
        else none
    else if c.toNat < 32 then none
    else consFst c (parseStringBodyF fuel rest)

/-- Parse a complete JSON string, opening quote included. -/
def parseJString : List Char → Option (List Char × List Char)
  | [] => none
  | c :: r => if c = '"' then parseStringBodyF (r.length + 1) r else none

/-- Parse the members of a nonempty object, starting at the first key and
consuming through the closing brace. The fuel argument only bounds the
number of members; callers supply at least the input length. -/
def parseMembers : Nat → List Char → Option (List (List Char × List Char) × List Char)
  | 0, _ => none
  | fuel + 1, l =>
    match parseJString l with
    | none => none
    | some (k, r) =>
      match skipWs r with
      | [] => none
      | c :: r2 =>
        if c = ':' then
          match parseJString (skipWs r2) with
          | none => none
          | some (v, r3) =>
            match skipWs r3 with
            | [] => none
            | c2 :: r4 =>
              if c2 = ',' then
                match parseMembers fuel (skipWs r4) with
                | none => none
                | some (ms, rest) => some ((k, v) :: ms, rest)
              else if c2 = '}' then some ([(k, v)], r4)
              else none
        else none

/-- Parse a whole JSON object with string values, requiring that nothing but
whitespace follows it. -/
def parseObject (s : List Char) : Option (List (List Char × List Char)) :=
  match skipWs s with
  | [] => none
  | c :: r =>
    if c = '{' then
      match skipWs r with
      | [] => none
      | c2 :: r2 =>
        if c2 = '}' then (if skipWs r2 = [] then some [] else none)
        else
          match parseMembers (s.length + 1) (c2 :: r2) with
          | none => none
          | some (ms, rest) => if skipWs rest = [] then some ms else none
    else none

/-- The parser on Lean strings. -/
def jsonParseObject (s : String) : Option (List (String × String)) :=
  (parseObject s.data).map (List.map (fun p => (⟨p.1⟩, ⟨p.2⟩)))

/-! ### Characterization of the bundling loop -/

/-- Setting a key that is not present appends it at the end. -/
lemma dictSet_of_not_mem (d : List (String × String)) (k v : String)
    (h : k ∉ d.map Prod.fst) : dictSet d k v = d ++ [(k, v)] := by
  unfold dictSet
  have hany : d.any (fun p => p.1 == k) = false := by
    rw [List.any_eq_false]
    intro p hp
    simp only [beq_iff_eq]
    intro hk
    exact h (List.mem_map.mpr ⟨p, hp, hk⟩)
  simp [hany]

/-- One loop iteration on a fresh key: it prints that entry's diagnostics and
appends the entry's value. -/
lemma bundleStep_spec (fs : FS) (st : RunState) (p : String × String)
    (h : p.1 ∉ st.pages.map Prod.fst) :
    bundleStep fs st p =
      { stdout := st.stdout ++ entryDiag fs p.2,
        stderr := st.stderr,
        pages := st.pages ++ [(p.1, entryValue fs p.2)] } := by
  unfold bundleStep entryDiag entryValue
  cases hfs : fs (osPathJoin base_path p.2) with
  | ok t => simp [hfs, dictSet_of_not_mem _ _ _ h]
  | error e => simp [hfs, dictSet_of_not_mem _ _ _ h]

/-- The loop over any suffix of the registry whose keys are fresh and
mutually distinct: diagnostics accumulate on stdout, entries accumulate in
registry order, stderr is untouched. -/
lemma foldl_bundle_spec (fs : FS) :
    ∀ (l : List (String × String)) (st : RunState),
      (st.pages.map Prod.fst ++ l.map Prod.fst).Nodup →
      List.foldl (bundleStep fs) st l =
        { stdout := st.stdout ++ (l.map (fun p => entryDiag fs p.2)).flatten,
          stderr := st.stderr,
          pages := st.pages ++ l.map (fun p => (p.1, entryValue fs p.2)) } := by
  intro l
  induction l with
  | nil => intro st _; simp
  | cons p l ih =>
    intro st hnd
    rw [List.map_cons] at hnd
    have hfresh : p.1 ∉ st.pages.map Prod.fst := by
      have hdisj := (List.nodup_append.mp hnd).2.2
      intro hmem
      exact hdisj hmem (by simp)
    have hnd' : ((st.pages ++ [(p.1, entryValue fs p.2)]).map Prod.fst
        ++ l.map Prod.fst).Nodup := by
      simpa [List.append_assoc] using hnd
    rw [List.foldl_cons, bundleStep_spec fs st p hfresh, ih _ hnd']
    simp [List.append_assoc]

/-- The registry's identifiers are pairwise distinct. -/
lemma pages_map_keys_nodup : (pages_map.map Prod.fst).Nodup := by decide

/-- The final state of the loop: the diagnostics of every failed entry in
registry order, an empty stderr, and one entry per registry pair. -/
lemma runBundle_spec (fs : FS) :
    runBundle fs =
      { stdout := (pages_map.map (fun p => entryDiag fs p.2)).flatten,
        stderr := [],
        pages := pages_map.map (fun p => (p.1, entryValue fs p.2)) } := by
  unfold runBundle
  rw [foldl_bundle_spec fs pages_map ⟨[], [], []⟩ (by simpa using pages_map_keys_nodup)]
  simp

/-- The dict the loop builds, entry by entry. -/
lemma embedded_pages_spec (fs : FS) :
    embedded_pages fs = pages_map.map (fun p => (p.1, entryValue fs p.2)) := by
  unfold embedded_pages
  rw [runBundle_spec]

/-- Lookup in a dict obtained by mapping values over a list with distinct
keys finds the value of the matching pair. -/
lemma lookupKey_map_of_mem (g : String × String → String) (k fn : String) :
    ∀ (l : List (String × String)), (l.map Prod.fst).Nodup → (k, fn) ∈ l →
      lookupKey k (l.map (fun p => (p.1, g p))) = some (g (k, fn)) := by
  intro l
  induction l with
  | nil => intro _ hmem; cases hmem
  | cons p l ih =>
    intro hnd hmem
    rw [List.map_cons] at hnd
    have h1 := (List.nodup_cons.mp hnd).1
    have h2 := (List.nodup_cons.mp hnd).2
    simp only [List.map_cons, lookupKey]
    rcases List.mem_cons.mp hmem with heq | htail
    · subst heq; simp
    · have hne : p.1 ≠ k := by
        intro hk
        have hk' : k ∈ l.map Prod.fst := List.mem_map.mpr ⟨(k, fn), htail, rfl⟩
        exact h1 (hk ▸ hk')
      rw [if_neg hne]
      exact ih h2 htail

/-! ### Concrete filesystem oracles used as witnesses -/

/-- Every read fails with message `boom`. -/
def fsAllFail : FS := fun _ => .error "boom"

/-- Every read succeeds with empty text. -/
def fsAllEmpty : FS := fun _ => .ok ""

/-- `README.md` holds `"a\r\nb"`; every other read fails. -/
def fsCRLF : FS :=
  fun p => if p = "docs/guide/README.md" then .ok "a\r\nb" else .error "missing"

/-- `README.md` holds `"x"`; every other read fails. -/
def fsHome : FS :=
  fun p => if p = "docs/guide/README.md" then .ok "x" else .error "missing"

/-! ### Entry-level properties of the content map -/

/-- A character other than carriage return passes through `univNL`. -/
lemma univNL_cons_ne (c : Char) (rest : List Char) (hc : c ≠ '\r') :
    univNL (c :: rest) = c :: univNL rest := by
  rw [univNL.eq_def]
  split
  · simp_all
  · simp_all
  · simp_all
  · simp_all

/-- Universal-newline translation is the identity on carriage-return-free
text. -/
lemma univNL_no_cr : ∀ (l : List Char), (∀ c ∈ l, c ≠ '\r') → univNL l = l := by
  intro l
  induction l with
  | nil => intro _; rfl
  | cons c rest ih =>
    intro h
    rw [univNL_cons_ne c rest (h c (by simp))]
    rw [ih (fun d hd => h d (by simp [hd]))]

/-- Lookup of any registry identifier in the final dict. -/
lemma lookupKey_embedded (fs : FS) (k fn : String) (hmem : (k, fn) ∈ pages_map) :
    lookupKey k (embedded_pages fs) = some (entryValue fs fn) := by
  rw [embedded_pages_spec]
  exact lookupKey_map_of_mem (fun p => entryValue fs p.2) k fn pages_map
    pages_map_keys_nodup hmem

/-- C1 (amended): for every registry entry whose file exists and is valid
UTF-8 text, the content map entry equals the exact file contents after UTF-8
decoding followed by Python text-mode universal-newline translation (each
`"\r\n"` and each lone `'\r'` becomes `'\n'`); no other trimming or
normalization occurs, and for contents free of carriage returns the entry is
byte-for-byte identical. -/
theorem read_success_entry_translated (fs : FS) (k fn t : String)
    (hmem : (k, fn) ∈ pages_map)
    (hread : fs (osPathJoin base_path fn) = .ok t) :
    lookupKey k (embedded_pages fs) = some (univNLStr t) ∧
    ((∀ c ∈ t.data, c ≠ '\r') → univNLStr t = t) := by
  constructor
  · rw [lookupKey_embedded fs k fn hmem]
    unfold entryValue
    rw [hread]
  · intro hnocr
    unfold univNLStr
    rw [univNL_no_cr t.data hnocr]

/-- Witness for `read_success_entry_translated` at a concrete input. -/
theorem read_success_entry_translated_witness :
    lookupKey "home" (embedded_pages fsHome) = some (univNLStr "x") ∧
    ((∀ c ∈ "x".data, c ≠ '\r') → univNLStr "x" = "x") :=
  read_success_entry_translated fsHome "home" "README.md" "x" (by decide) rfl

/-- C1 counterexample: a file whose text is `"a\r\nb"` is stored as
`"a\nb"`, so the stored entry is not byte-for-byte equal to the decoded file
contents — text-mode reading normalizes newlines. -/
theorem read_success_entry_not_exact :
    fsCRLF "docs/guide/README.md" = .ok "a\r\nb" ∧
    lookupKey "home" (embedded_pages fsCRLF) = some "a\nb" ∧
    some "a\nb" ≠ some "a\r\nb" := by
  refine ⟨rfl, ?_, by decide⟩
  decide

/-- C4: the final dict has exactly one entry per registry entry, with the
registry's identifiers in the registry's order, however many reads fail. -/
theorem result_keys_eq_registry (fs : FS) :
    (embedded_pages fs).map Prod.fst = pages_map.map Prod.fst ∧
    (embedded_pages fs).length = pages_map.length := by
  rw [embedded_pages_spec]
  constructor
  · rw [List.map_map]
    rfl
  · rw [List.length_map]

/-- C5: for every registry entry whose read fails, the stored entry is
exactly the fallback string built from the registry's relative filename,
not from the joined path. -/
theorem read_failure_entry_fallback (fs : FS) (k fn e : String)
    (hmem : (k, fn) ∈ pages_map)
    (hread : fs (osPathJoin base_path fn) = .error e) :
    lookupKey k (embedded_pages fs) = some ("# Error\nCould not load " ++ fn) := by
  rw [lookupKey_embedded fs k fn hmem]
  unfold entryValue
  rw [hread]

/-- Witness for `read_failure_entry_fallback` at a concrete input. -/
theorem read_failure_entry_fallback_witness :
    lookupKey "migration" (embedded_pages fsAllFail)
      = some ("# Error\nCould not load " ++ "migration.md") :=
  read_failure_entry_fallback fsAllFail "migration" "migration.md" "boom"
    (by decide) rfl

/-- C6: whatever the filesystem does, the run completes normally with exit
status 0, writes exactly one serialized-output chunk after the diagnostics,
and the dict covers every registry entry — failed entries via the fallback
text, as `entryValue` states. -/
theorem failures_locally_recovered (fs : FS) :
    (runProgram fs).exitCode = 0 ∧
    embedded_pages fs = pages_map.map (fun p => (p.1, entryValue fs p.2)) ∧
    (runProgram fs).stdout =
      (pages_map.map (fun p => entryDiag fs p.2)).flatten ++ [js_content fs ++ "\n"] := by
  refine ⟨rfl, embedded_pages_spec fs, ?_⟩
  show (runBundle fs).stdout ++ [js_content fs ++ "\n"] = _
  rw [runBundle_spec]

/-- C9: for every registry entry, every execution path through the loop body
ends with the identifier mapped to either the (translated) file text or the
fallback string — the `except Exception` arm absorbs any read fault, so the
loop itself cannot raise. -/
theorem entry_always_mapped (fs : FS) (k fn : String) (hmem : (k, fn) ∈ pages_map) :
    (∃ t, fs (osPathJoin base_path fn) = .ok t ∧
        lookupKey k (embedded_pages fs) = some (univNLStr t)) ∨
    (∃ e, fs (osPathJoin base_path fn) = .error e ∧
        lookupKey k (embedded_pages fs) = some ("# Error\nCould not load " ++ fn)) := by
  cases hread : fs (osPathJoin base_path fn) with
  | ok t =>
    left
    exact ⟨t, rfl, (read_success_entry_translated fs k fn t hmem hread).1⟩
  | error e =>
    right
    exact ⟨e, rfl, read_failure_entry_fallback fs k fn e hmem hread⟩

/-- Witness for `entry_always_mapped` at a concrete input. -/
theorem entry_always_mapped_witness :
    (∃ t, fsAllFail (osPathJoin base_path "ci-cd.md") = .ok t ∧
        lookupKey "ci-cd" (embedded_pages fsAllFail) = some (univNLStr t)) ∨
    (∃ e, fsAllFail (osPathJoin base_path "ci-cd.md") = .error e ∧
        lookupKey "ci-cd" (embedded_pages fsAllFail)
          = some ("# Error\nCould not load " ++ "ci-cd.md")) :=
  entry_always_mapped fsAllFail "ci-cd" "ci-cd.md" (by decide)

/-! ### Diagnostics and the shape of standard output -/

/-- C2 (amended): on a per-file read failure a human-readable line naming
the joined path and the underlying fault is printed, but via `print`, i.e.
to standard output — the script writes nothing to any error/log stream —
and the run is not interrupted. -/
theorem diagnostic_printed_to_stdout (fs : FS) (k fn e : String)
    (hmem : (k, fn) ∈ pages_map)
    (hread : fs (osPathJoin base_path fn) = .error e) :
    ("Error reading " ++ osPathJoin base_path fn ++ ": " ++ e ++ "\n")
        ∈ (runProgram fs).stdout ∧
    (runProgram fs).stderr = [] ∧
    (runProgram fs).exitCode = 0 := by
  refine ⟨?_, ?_, rfl⟩
  · show _ ∈ (runBundle fs).stdout ++ [js_content fs ++ "\n"]
    rw [runBundle_spec]
    apply List.mem_append_left
    apply List.mem_flatten.mpr
    refine ⟨entryDiag fs fn, List.mem_map.mpr ⟨(k, fn), hmem, rfl⟩, ?_⟩
    unfold entryDiag
    rw [hread]
    simp
  · show (runBundle fs).stderr = []
    rw [runBundle_spec]

/-- Witness for `diagnostic_printed_to_stdout` at a concrete input. -/
theorem diagnostic_printed_to_stdout_witness :
    ("Error reading " ++ osPathJoin base_path "README.md" ++ ": " ++ "boom" ++ "\n")
        ∈ (runProgram fsAllFail).stdout ∧
    (runProgram fsAllFail).stderr = [] ∧
    (runProgram fsAllFail).exitCode = 0 :=
  diagnostic_printed_to_stdout fsAllFail "home" "README.md" "boom" (by decide) rfl

/-- C2 counterexample: with every read failing, the diagnostic line sits in
standard output while the error stream stays empty — the claim's "written to
an error/log stream and not to standard output" fails on the code, which
uses a plain `print`. -/
theorem diagnostic_not_on_error_stream :
    (runProgram fsAllFail).stderr = [] ∧
    "Error reading docs/guide/README.md: boom\n" ∈ (runProgram fsAllFail).stdout := by
  constructor
  · rfl
  · decide

/-- Any string grows strictly when a newline is appended. -/
lemma append_newline_ne (s : String) : s ++ "\n" ≠ s := by
  intro h
  have hlen := congrArg String.length h
  rw [String.length_append] at hlen
  have h1 : ("\n" : String).length = 1 := rfl
  omega

/-- C3 (amended): the last chunk written to standard output is the eight
space prefix, `const embeddedPages = `, the `json.dumps(..., indent=4)`
literal, then `";\n"` — followed by one further newline appended by
`print`. -/
theorem serialized_chunk_shape (fs : FS) :
    (runProgram fs).stdout.getLast? =
      some ("        const embeddedPages = " ++ jsonDumps (embedded_pages fs)
            ++ ";\n" ++ "\n") := by
  show ((runBundle fs).stdout ++ [js_content fs ++ "\n"]).getLast? = _
  simp [js_content]

/-- C3 counterexample: with every read succeeding, the whole of standard
output is the serialized string plus one extra newline — so the claim's
"no further characters appended after that newline" fails on the code
(`print` adds its own newline after `js_content`). -/
theorem output_has_extra_newline :
    String.join (runProgram fsAllEmpty).stdout =
      ("        const embeddedPages = " ++ jsonDumps (embedded_pages fsAllEmpty)
        ++ ";\n") ++ "\n" ∧
    ("        const embeddedPages = " ++ jsonDumps (embedded_pages fsAllEmpty)
        ++ ";\n") ++ "\n" ≠
      "        const embeddedPages = " ++ jsonDumps (embedded_pages fsAllEmpty)
        ++ ";\n" := by
  constructor
  · have hstdout : (runBundle fsAllEmpty).stdout = [] := by decide
    show String.join ((runBundle fsAllEmpty).stdout ++ [js_content fsAllEmpty ++ "\n"]) = _
    rw [hstdout]
    rfl
  · exact append_newline_ne _

/-- C8: the run is a deterministic function of the per-file read outcomes —
two filesystems agreeing on every registry path produce identical runs,
hence byte-identical standard output. -/
theorem bundler_deterministic (fs1 fs2 : FS)
    (h : ∀ p ∈ pages_map, fs1 (osPathJoin base_path p.2) = fs2 (osPathJoin base_path p.2)) :
    runProgram fs1 = runProgram fs2 := by
  have hval : ∀ p ∈ pages_map, entryValue fs1 p.2 = entryValue fs2 p.2 := by
    intro p hp
    unfold entryValue
    rw [h p hp]
  have hdiag : ∀ p ∈ pages_map, entryDiag fs1 p.2 = entryDiag fs2 p.2 := by
    intro p hp
    unfold entryDiag
    rw [h p hp]
  have hpages : embedded_pages fs1 = embedded_pages fs2 := by
    rw [embedded_pages_spec, embedded_pages_spec]
    exact List.map_congr_left (fun p hp => by rw [hval p hp])
  have hjs : js_content fs1 = js_content fs2 := by
    unfold js_content
    rw [hpages]
  have hflat : (pages_map.map (fun p => entryDiag fs1 p.2)).flatten
      = (pages_map.map (fun p => entryDiag fs2 p.2)).flatten := by
    rw [List.map_congr_left hdiag]
  show RunResult.mk ((runBundle fs1).stdout ++ [js_content fs1 ++ "\n"])
        (runBundle fs1).stderr 0
      = RunResult.mk ((runBundle fs2).stdout ++ [js_content fs2 ++ "\n"])
        (runBundle fs2).stderr 0
  rw [runBundle_spec, runBundle_spec, hjs, hflat]

/-- Witness for `bundler_deterministic` at a concrete input. -/
theorem bundler_deterministic_witness :
    runProgram fsAllFail = runProgram fsAllFail :=
  bundler_deterministic fsAllFail fsAllFail (fun _ _ => rfl)

/-! ### Round-trip: the parser inverts the serializer -/

/-- Decoding a hex digit the serializer printed gives back its value. -/
lemma hexVal_hexDig (d : Nat) (h : d < 16) : hexVal (hexDig d) = some d := by
  interval_cases d <;> decide

/-- Every Lean character is a Unicode scalar value: below 0x110000 and not a
surrogate. -/
lemma char_toNat_facts (c : Char) :
    c.toNat < 1114112 ∧ ¬(55296 ≤ c.toNat ∧ c.toNat ≤ 57343) := by
  have h := c.valid
  simp only [Char.toNat]
  rcases h with h | ⟨h1, h2⟩ <;> constructor <;> omega

/-- Rebuilding a character from its scalar value. -/
lemma charOfNat_toNat (c : Char) : Char.ofNat c.toNat = c := by
  have hv : Nat.isValidChar c.toNat := c.valid
  rw [Char.ofNat, dif_pos hv]
  apply Char.ext
  apply UInt32.ext
  rfl

/-- The four hex digits of a 16-bit value recombine to the value. -/
lemma hex_digits_recombine (n : Nat) (h : n < 65536) :
    n / 4096 % 16 * 4096 + n / 256 % 16 * 256 + n / 16 % 16 * 16 + n % 16 = n := by
  omega

/-- Unfolding of the parser on a `\uXXXX` escape head. -/
lemma psbF_u_cons (fuel : Nat) (a b c2 d : Char) (r2 : List Char) :
    parseStringBodyF (fuel + 1) ('\\' :: 'u' :: a :: b :: c2 :: d :: r2) =
      ((hexVal a).bind fun va => (hexVal b).bind fun vb =>
       (hexVal c2).bind fun vc => (hexVal d).bind fun vd =>
       let n := va * 4096 + vb * 256 + vc * 16 + vd
       if 55296 ≤ n ∧ n ≤ 56319 then parseLowSur n (parseStringBodyF fuel) r2
       else if 56320 ≤ n ∧ n ≤ 57343 then none
       else consFst (Char.ofNat n) (parseStringBodyF fuel r2)) := rfl

/-- Unfolding of `parseLowSur` on a `\uXXXX` escape head. -/
lemma parseLowSur_cons (n : Nat) (k : List Char → Option (List Char × List Char))
    (a2 b2 c3 d2 : Char) (r3 : List Char) :
    parseLowSur n k ('\\' :: 'u' :: a2 :: b2 :: c3 :: d2 :: r3) =
      ((hexVal a2).bind fun wa => (hexVal b2).bind fun wb =>
       (hexVal c3).bind fun wc => (hexVal d2).bind fun wd =>
       let m := wa * 4096 + wb * 256 + wc * 16 + wd
       if 56320 ≤ m ∧ m ≤ 57343 then
         consFst (Char.ofNat (65536 + (n - 55296) * 1024 + (m - 56320))) (k r3)
       else none) := rfl

/-- The parser, fed the four printed hex digits of `n`, reaches the branch
selection on `n`. -/
lemma psbF_u_hex (fuel : Nat) (n : Nat) (r2 : List Char) (hn : n < 65536) :
    parseStringBodyF (fuel + 1) (('\\' :: 'u' :: toHex4 n) ++ r2) =
      (if 55296 ≤ n ∧ n ≤ 56319 then parseLowSur n (parseStringBodyF fuel) r2
       else if 56320 ≤ n ∧ n ≤ 57343 then none
       else consFst (Char.ofNat n) (parseStringBodyF fuel r2)) := by
  show parseStringBodyF (fuel + 1) ('\\' :: 'u' :: hexDig (n / 4096 % 16)
      :: hexDig (n / 256 % 16) :: hexDig (n / 16 % 16) :: hexDig (n % 16) :: r2) = _
  rw [psbF_u_cons,
      hexVal_hexDig _ (Nat.mod_lt _ (by norm_num)),
      hexVal_hexDig _ (Nat.mod_lt _ (by norm_num)),
      hexVal_hexDig _ (Nat.mod_lt _ (by norm_num)),
      hexVal_hexDig _ (Nat.mod_lt _ (by norm_num))]
  simp only [Option.some_bind]
  rw [hex_digits_recombine n hn]

/-- `parseLowSur`, fed the four printed hex digits of `m`, reaches the branch
selection on `m`. -/
lemma parseLowSur_hex (n m : Nat) (k : List Char → Option (List Char × List Char))
    (tail : List Char) (hm : m < 65536) :
    parseLowSur n k (('\\' :: 'u' :: toHex4 m) ++ tail) =
      (if 56320 ≤ m ∧ m ≤ 57343 then
        consFst (Char.ofNat (65536 + (n - 55296) * 1024 + (m - 56320))) (k tail)
      else none) := by
  show parseLowSur n k ('\\' :: 'u' :: hexDig (m / 4096 % 16)
      :: hexDig (m / 256 % 16) :: hexDig (m / 16 % 16) :: hexDig (m % 16) :: tail) = _
  rw [parseLowSur_cons,
      hexVal_hexDig _ (Nat.mod_lt _ (by norm_num)),
      hexVal_hexDig _ (Nat.mod_lt _ (by norm_num)),
      hexVal_hexDig _ (Nat.mod_lt _ (by norm_num)),
      hexVal_hexDig _ (Nat.mod_lt _ (by norm_num))]
  simp only [Option.some_bind]
  rw [hex_digits_recombine m hm]

/-- Parsing the escape sequence of one character decodes exactly that
character and continues. -/
lemma parse_escapeChar (c : Char) (tail : List Char) (fuel : Nat) :
    parseStringBodyF (fuel + 1) (escapeChar c ++ tail)
      = consFst c (parseStringBodyF fuel tail) := by
  have hfacts := char_toNat_facts c
  by_cases h1 : c = '\\'
  · subst h1; rfl
  by_cases h2 : c = '"'
  · subst h2; rfl
  by_cases h3 : c = Char.ofNat 8
  · subst h3; rfl
  by_cases h4 : c = Char.ofNat 12
  · subst h4; rfl
  by_cases h5 : c = '\n'
  · subst h5; rfl
  by_cases h6 : c = '\r'
  · subst h6; rfl
  by_cases h7 : c = '\t'
  · subst h7; rfl
  by_cases h8 : 32 ≤ c.toNat ∧ c.toNat ≤ 126
  · have hesc : escapeChar c = [c] := by
      unfold escapeChar
      rw [if_neg h1, if_neg h2, if_neg h3, if_neg h4, if_neg h5, if_neg h6, if_neg h7,
          if_pos h8]
    rw [hesc]
    show parseStringBodyF (fuel + 1) (c :: tail) = _
    simp only [parseStringBodyF]
    rw [if_neg h2, if_neg h1, if_neg (by omega : ¬(c.toNat < 32))]
  by_cases h9 : c.toNat < 65536
  · have hesc : escapeChar c = '\\' :: 'u' :: toHex4 c.toNat := by
      unfold escapeChar
      rw [if_neg h1, if_neg h2, if_neg h3, if_neg h4, if_neg h5, if_neg h6, if_neg h7,
          if_neg h8, if_pos h9]
    rw [hesc, psbF_u_hex fuel c.toNat tail h9,
        if_neg (by omega : ¬(55296 ≤ c.toNat ∧ c.toNat ≤ 56319)),
        if_neg (by omega : ¬(56320 ≤ c.toNat ∧ c.toNat ≤ 57343)),
        charOfNat_toNat]
  · have hesc : escapeChar c =
        ('\\' :: 'u' :: toHex4 (55296 + (c.toNat - 65536) / 1024)) ++
        ('\\' :: 'u' :: toHex4 (56320 + (c.toNat - 65536) % 1024)) := by
      unfold escapeChar
      rw [if_neg h1, if_neg h2, if_neg h3, if_neg h4, if_neg h5, if_neg h6, if_neg h7,
          if_neg h8, if_neg h9]
    rw [hesc, List.append_assoc,
        psbF_u_hex fuel (55296 + (c.toNat - 65536) / 1024) _ (by omega),
        if_pos (by omega : 55296 ≤ 55296 + (c.toNat - 65536) / 1024 ∧
          55296 + (c.toNat - 65536) / 1024 ≤ 56319),
        parseLowSur_hex _ (56320 + (c.toNat - 65536) % 1024) _ tail (by omega),
        if_pos (by omega : 56320 ≤ 56320 + (c.toNat - 65536) % 1024 ∧
          56320 + (c.toNat - 65536) % 1024 ≤ 57343)]
    have harith : 65536 + (55296 + (c.toNat - 65536) / 1024 - 55296) * 1024 +
        (56320 + (c.toNat - 65536) % 1024 - 56320) = c.toNat := by omega
    rw [harith, charOfNat_toNat]

/-- Escaping never shortens: each character produces at least one output
character. -/
lemma escapeChar_length_pos (c : Char) : 1 ≤ (escapeChar c).length := by
  unfold escapeChar
  split_ifs <;> simp [toHex4]

/-- The escaped body is at least as long as the original. -/
lemma escBody_length (s : List Char) :
    s.length ≤ ((s.map escapeChar).flatten).length := by
  induction s with
  | nil => simp
  | cons c s ih =>
    simp only [List.map_cons, List.flatten_cons, List.length_append, List.length_cons]
    have := escapeChar_length_pos c
    omega

/-- Parsing the escaped body of `s` followed by a closing quote yields `s`
and the input after the quote, given fuel at least `s.length`. -/
lemma parse_escBody (s : List Char) :
    ∀ (fuel : Nat), s.length ≤ fuel → ∀ (tail : List Char),
      parseStringBodyF (fuel + 1) ((s.map escapeChar).flatten ++ '"' :: tail)
        = some (s, tail) := by
  induction s with
  | nil => intro fuel _ tail; rfl
  | cons c s ih =>
    intro fuel hfuel tail
    cases fuel with
    | zero => simp at hfuel
    | succ g =>
      simp only [List.map_cons, List.flatten_cons, List.append_assoc]
      rw [parse_escapeChar c _ (g + 1)]
      rw [ih g (by simp at hfuel; omega) tail]
      rfl

/-- Parsing a serialized string yields the original and the rest. -/
lemma parseJString_enc (s : List Char) (tail : List Char) :
    parseJString (encString s ++ tail) = some (s, tail) := by
  have hshape : encString s ++ tail
      = '"' :: ((s.map escapeChar).flatten ++ '"' :: tail) := by
    simp [encString]
  rw [hshape]
  show (if ('"' : Char) = '"'
      then parseStringBodyF (((s.map escapeChar).flatten ++ '"' :: tail).length + 1)
        ((s.map escapeChar).flatten ++ '"' :: tail)
      else none) = some (s, tail)
  rw [if_pos rfl]
  apply parse_escBody
  have h1 := escBody_length s
  have h2 : ((s.map escapeChar).flatten ++ '"' :: tail).length
      = ((s.map escapeChar).flatten).length + (tail.length + 1) := by
    rw [List.length_append, List.length_cons]
  omega

/-- `skipWs` keeps a colon. -/
lemma skipWs_colon (l : List Char) : skipWs (':' :: l) = ':' :: l := rfl

/-- `skipWs` keeps a comma. -/
lemma skipWs_comma (l : List Char) : skipWs (',' :: l) = ',' :: l := rfl

/-- `skipWs` drops a space. -/
lemma skipWs_space (l : List Char) : skipWs (' ' :: l) = skipWs l := rfl

/-- `skipWs` drops a newline. -/
lemma skipWs_nl (l : List Char) : skipWs ('\n' :: l) = skipWs l := rfl

/-- `skipWs` keeps a serialized string, which starts with a quote. -/
lemma skipWs_enc (s tail : List Char) :
    skipWs (encString s ++ tail) = encString s ++ tail := rfl

/-- `skipWs` keeps a serialized member, which starts with a quote. -/
lemma skipWs_item (q : List Char × List Char) (tail : List Char) :
    skipWs (dumpItem q ++ tail) = dumpItem q ++ tail := rfl

/-- Parsing the serialized members, from the first key through the closing
brace, returns all members and nothing after the brace. -/
lemma parseMembers_dump :
    ∀ (ps : List (List Char × List Char)) (p : List Char × List Char) (fuel : Nat),
      ps.length < fuel →
      parseMembers fuel (dumpItem p ++ membersTail ps) = some (p :: ps, []) := by
  intro ps
  induction ps with
  | nil =>
    intro p fuel hf
    cases fuel with
    | zero => omega
    | succ g =>
      have hshape : dumpItem p ++ membersTail ([] : List (List Char × List Char))
          = encString p.1 ++ (':' :: ' ' :: (encString p.2 ++ ('\n' :: '}' :: []))) := by
        simp [dumpItem, membersTail]
      rw [hshape]
      simp only [parseMembers]
      rw [parseJString_enc]
      simp only [Option.some_bind]
      rw [skipWs_colon]
      dsimp only
      rw [skipWs_space, skipWs_enc, parseJString_enc]
      simp only [Option.some_bind]
      rw [skipWs_nl]
      rfl
  | cons q qs ih =>
    intro p fuel hf
    cases fuel with
    | zero => omega
    | succ g =>
      have hshape : dumpItem p ++ membersTail (q :: qs)
          = encString p.1 ++ (':' :: ' ' :: (encString p.2 ++ (',' :: '\n' ::
              ' ' :: ' ' :: ' ' :: ' ' :: (dumpItem q ++ membersTail qs)))) := by
        simp [dumpItem, membersTail]
      rw [hshape]
      simp only [parseMembers]
      rw [parseJString_enc]
      simp only [Option.some_bind]
      rw [skipWs_colon]
      dsimp only
      rw [skipWs_space, skipWs_enc, parseJString_enc]
      simp only [Option.some_bind]
      rw [skipWs_comma]
      dsimp only
      rw [skipWs_nl, skipWs_space, skipWs_space, skipWs_space, skipWs_space, skipWs_item]
      rw [ih q g (by simp at hf; omega)]
      rfl

/-- A member list is never longer than its serialization tail. -/
lemma membersTail_length (ps : List (List Char × List Char)) :
    ps.length ≤ (membersTail ps).length := by
  induction ps with
  | nil => simp [membersTail]
  | cons q qs ih =>
    simp only [membersTail, List.length_cons, List.length_append]
    omega

/-- The parser inverts the serializer on whole objects. -/
lemma parseObject_dumps (m : List (List Char × List Char)) :
    parseObject (dumpsList m) = some m := by
  cases m with
  | nil => rfl
  | cons p ps =>
    have hred : parseObject (dumpsList (p :: ps)) =
        (match parseMembers ((dumpsList (p :: ps)).length + 1)
            (dumpItem p ++ membersTail ps) with
         | none => none
         | some (ms, rest) => if skipWs rest = [] then some ms else none) := rfl
    rw [hred]
    have hlen : ps.length < (dumpsList (p :: ps)).length + 1 := by
      have h1 := membersTail_length ps
      have h2 : (dumpsList (p :: ps)).length
          = 6 + (dumpItem p).length + (membersTail ps).length := by
        simp only [dumpsList, List.length_cons, List.length_append]
        omega
      omega
    rw [parseMembers_dump ps p _ hlen]
    rfl

/-- C7: serialization round-trips — for every content map, including values
holding quotes, backslashes, newlines and non-ASCII characters, parsing the
structured-literal portion of the output with a standard JSON parser yields
exactly the original keys and string values; in particular this holds for
the dict the script serializes, whatever the filesystem contains. -/
theorem serialization_roundtrip :
    (∀ (m : List (String × String)), jsonParseObject (jsonDumps m) = some m) ∧
    (∀ (fs : FS), jsonParseObject (jsonDumps (embedded_pages fs))
        = some (embedded_pages fs)) := by
  have hmain : ∀ (m : List (String × String)), jsonParseObject (jsonDumps m) = some m := by
    intro m
    unfold jsonParseObject jsonDumps
    rw [show (String.mk (dumpsList (m.map fun p => (p.1.data, p.2.data)))).data
        = dumpsList (m.map fun p => (p.1.data, p.2.data)) from rfl]
    rw [parseObject_dumps]
    show some ((m.map (fun p : String × String => (p.1.data, p.2.data))).map
        (fun p => ((⟨p.1⟩ : String), (⟨p.2⟩ : String)))) = some m
    rw [List.map_map]
    have hid : ((fun p : List Char × List Char => ((⟨p.1⟩ : String), (⟨p.2⟩ : String))) ∘
        (fun p : String × String => (p.1.data, p.2.data))) = id := rfl
    rw [hid, List.map_id]
  exact ⟨hmain, fun fs => hmain (embedded_pages fs)⟩

/-! ### The serialized output is pure ASCII -/

/-- Hex digits are ASCII. -/
lemma hexDig_ascii (d : Nat) (h : d < 16) : (hexDig d).toNat ≤ 127 := by
  interval_cases d <;> decide

/-- Printed hex quadruples are ASCII. -/
lemma toHex4_ascii (n : Nat) : ∀ d ∈ toHex4 n, d.toNat ≤ 127 := by
  intro d hd
  simp only [toHex4, List.mem_cons, List.not_mem_nil, or_false] at hd
  rcases hd with rfl | rfl | rfl | rfl <;>
    exact hexDig_ascii _ (Nat.mod_lt _ (by norm_num))

/-- Every character the escaper emits is ASCII, whatever goes in. -/
lemma escapeChar_ascii (c : Char) : ∀ d ∈ escapeChar c, d.toNat ≤ 127 := by
  unfold escapeChar
  split_ifs with h1 h2 h3 h4 h5 h6 h7 h8 h9
  · decide
  · decide
  · decide
  · decide
  · decide
  · decide
  · decide
  · intro d hd
    simp only [List.mem_singleton] at hd
    subst hd
    omega
  · intro d hd
    simp only [List.mem_cons] at hd
    rcases hd with rfl | rfl | h
    · decide
    · decide
    · exact toHex4_ascii _ d h
  · intro d hd
    simp only [List.mem_append, List.mem_cons] at hd
    rcases hd with (rfl | rfl | h) | (rfl | rfl | h)
    · decide
    · decide
    · exact toHex4_ascii _ d h
    · decide
    · decide
    · exact toHex4_ascii _ d h

/-- Serialized strings are ASCII. -/
lemma encString_ascii (s : List Char) : ∀ d ∈ encString s, d.toNat ≤ 127 := by
  intro d hd
  simp only [encString, List.mem_cons, List.mem_append, List.mem_flatten,
    List.mem_singleton, List.mem_map, List.not_mem_nil, or_false] at hd
  rcases hd with (rfl | ⟨l, ⟨c, _, rfl⟩, hdl⟩) | rfl
  · decide
  · exact escapeChar_ascii c d hdl
  · decide

/-- Serialized members are ASCII. -/
lemma dumpItem_ascii (p : List Char × List Char) : ∀ d ∈ dumpItem p, d.toNat ≤ 127 := by
  intro d hd
  simp only [dumpItem, List.mem_append, List.mem_cons] at hd
  rcases hd with h | rfl | rfl | h
  · exact encString_ascii _ d h
  · decide
  · decide
  · exact encString_ascii _ d h

/-- The serialized tail after a member is ASCII. -/
lemma membersTail_ascii (ps : List (List Char × List Char)) :
    ∀ d ∈ membersTail ps, d.toNat ≤ 127 := by
  induction ps with
  | nil => decide
  | cons q qs ih =>
    intro d hd
    simp only [membersTail, List.mem_cons, List.mem_append] at hd
    rcases hd with rfl | rfl | rfl | rfl | rfl | rfl | h | h
    · decide
    · decide
    · decide
    · decide
    · decide
    · decide
    · exact dumpItem_ascii q d h
    · exact ih d h

/-- The whole serialized literal is ASCII. -/
lemma dumpsList_ascii (m : List (List Char × List Char)) :
    ∀ d ∈ dumpsList m, d.toNat ≤ 127 := by
  cases m with
  | nil => decide
  | cons p ps =>
    intro d hd
    simp only [dumpsList, List.mem_cons, List.mem_append] at hd
    rcases hd with rfl | rfl | rfl | rfl | rfl | rfl | h | h
    · decide
    · decide
    · decide
    · decide
    · decide
    · decide
    · exact dumpItem_ascii p d h
    · exact membersTail_ascii ps d h

/-- C10: the serialized assignment string is pure ASCII — every character
of `js_content` is below 0x80, whatever the files contain, because
`json.dumps` escapes everything outside printable ASCII. -/
theorem serialized_output_pure_ascii (fs : FS) :
    ∀ c ∈ (js_content fs).data, c.toNat ≤ 127 := by
  intro c hc
  have hsplit : (js_content fs).data
      = "        const embeddedPages = ".data
        ++ (jsonDumps (embedded_pages fs)).data ++ ";\n".data := by
    simp [js_content, String.data_append]
  rw [hsplit] at hc
  simp only [List.mem_append] at hc
  rcases hc with (hc | hc) | hc
  · exact (by decide : ∀ d ∈ "        const embeddedPages = ".data, d.toNat ≤ 127) c hc
  · have hdata : (jsonDumps (embedded_pages fs)).data
        = dumpsList ((embedded_pages fs).map fun p => (p.1.data, p.2.data)) := rfl
    rw [hdata] at hc
    exact dumpsList_ascii _ c hc
  · exact (by decide : ∀ d ∈ ";\n".data, d.toNat ≤ 127) c hc

/-- Witness for `serialized_output_pure_ascii` at a concrete input. -/
theorem serialized_output_pure_ascii_witness : (' ' : Char).toNat ≤ 127 :=
  serialized_output_pure_ascii fsAllFail ' ' (by decide)
